import Mathlib

/-!
Verification development for the reminder scheduling engine of the
PsychochauffeurBot repository (`modules/reminders/reminders.py`).

The embedding models:
  * timezone-aware Python `datetime` values as wall-clock civil timestamps
    (`PyDateTime`): all datetimes in the engine live in the single fixed
    Kyiv zone, so ordering and `timedelta` arithmetic are wall-clock; the
    proleptic-Gregorian ordinal (`toOrdinal`) follows CPython's
    `_days_before_year` / `_days_before_month` decomposition;
  * `Reminder.calculate_next_execution`, `_calc_first_month` and
    `_calc_last_month` exactly, including the `ValueError` raised by
    `datetime(year, 13, 1)` when `now.month == 11` in the adjusted branch
    (modelled as `none`);
  * the sqlite-backed store (`save_reminder`, `load_reminders`,
    `remove_reminder`) over a list of rows whose `next_execution` column is
    the ISO-8601 TEXT produced by `datetime.isoformat` and read back by
    `dateutil.isoparse` (both modelled character-by-character; the offset
    suffix is the fixed Kyiv wall-clock tag);
  * the dispatch callback `send_reminder` and the `/remind delete` branch as
    state transitions over store rows, the in-memory cache, the job queue
    and the error log (an exception escaping the callback is `none`);
  * the text parser `extract_task_and_time` / `parse`, with Python `re`
    searches implemented as leftmost-position scans (patterns are matched on
    the lowercased text, `\b` is an ASCII word/non-word boundary, `.` is
    modelled as matching any character).
-/

/-- Leap year rule used by CPython's `datetime` module. -/
def isLeap (y : Nat) : Prop := (y % 4 = 0 ∧ y % 100 ≠ 0) ∨ y % 400 = 0

instance (y : Nat) : Decidable (isLeap y) := by unfold isLeap; infer_instance

/-- Length of a month in the proleptic Gregorian calendar (CPython `_days_in_month`). -/
def daysInMonth (y m : Nat) : Nat :=
  if m = 2 then (if isLeap y then 29 else 28)
  else if m = 4 ∨ m = 6 ∨ m = 9 ∨ m = 11 then 30
  else 31

/-- CPython `_DAYS_BEFORE_MONTH` table (non-leap cumulative month lengths). -/
def daysBeforeMonthBase (m : Nat) : Nat :=
  match m with
  | 1 => 0
  | 2 => 31
  | 3 => 59
  | 4 => 90
  | 5 => 120
  | 6 => 151
  | 7 => 181
  | 8 => 212
  | 9 => 243
  | 10 => 273
  | 11 => 304
  | 12 => 334
  | _ => 0

/-- CPython `_days_before_month`. -/
def daysBeforeMonth (y m : Nat) : Nat :=
  daysBeforeMonthBase m + (if 2 < m ∧ isLeap y then 1 else 0)

/-- CPython `_days_before_year`. -/
def daysBeforeYear (y : Nat) : Nat :=
  365 * (y - 1) + (y - 1) / 4 - (y - 1) / 100 + (y - 1) / 400

/-- Wall-clock civil timestamp, the model of a Kyiv-aware Python `datetime`. -/
structure PyDateTime where
  year : Nat
  month : Nat
  day : Nat
  hour : Nat
  minute : Nat
  second : Nat
  usec : Nat
deriving DecidableEq, Repr

/-- CPython `_ymd2ord`: proleptic Gregorian ordinal of the date. -/
def toOrdinal (dt : PyDateTime) : Nat :=
  daysBeforeYear dt.year + daysBeforeMonth dt.year dt.month + dt.day

/-- Seconds elapsed since midnight. -/
def secOfDay (dt : PyDateTime) : Nat :=
  dt.hour * 3600 + dt.minute * 60 + dt.second

/-- Total microseconds since the epoch of year 1; datetime comparison and
subtraction in the single fixed zone reduce to comparing this value. -/
def totalMicro (dt : PyDateTime) : Nat :=
  (toOrdinal dt * 86400 + secOfDay dt) * 1000000 + dt.usec

/-- Successor date (the date component of `dt + timedelta(days=1)`). -/
def addOneDay (dt : PyDateTime) : PyDateTime :=
  if dt.day < daysInMonth dt.year dt.month then { dt with day := dt.day + 1 }
  else if dt.month < 12 then { dt with month := dt.month + 1, day := 1 }
  else { dt with year := dt.year + 1, month := 1, day := 1 }

/-- `dt + timedelta(days=n)`: time of day is untouched in the fixed zone. -/
def addDaysN : Nat → PyDateTime → PyDateTime
  | 0, dt => dt
  | n + 1, dt => addDaysN n (addOneDay dt)

/-- Predecessor date (the date component of `dt - timedelta(days=1)`). -/
def subOneDay (dt : PyDateTime) : PyDateTime :=
  if 1 < dt.day then { dt with day := dt.day - 1 }
  else if 1 < dt.month then { dt with month := dt.month - 1, day := daysInMonth dt.year (dt.month - 1) }
  else { dt with year := dt.year - 1, month := 12, day := 31 }

/-- `dt + relativedelta(months=1)` (dateutil): bump the month, clamp the day
to the length of the target month, keep the time of day. -/
def addMonths1 (dt : PyDateTime) : PyDateTime :=
  if dt.month = 12 then
    { dt with year := dt.year + 1, month := 1, day := min dt.day (daysInMonth (dt.year + 1) 1) }
  else
    { dt with month := dt.month + 1, day := min dt.day (daysInMonth dt.year (dt.month + 1)) }

/-- `dt + timedelta(seconds=s)`. -/
def addSecondsN (s : Nat) (dt : PyDateTime) : PyDateTime :=
  let tot := secOfDay dt + s
  addDaysN (tot / 86400)
    { dt with hour := tot % 86400 / 3600, minute := tot % 86400 % 3600 / 60, second := tot % 86400 % 60 }

/-- The field ranges enforced by the Python `datetime` constructor
(year 10000 rollover aside, see the module docstring). -/
def ValidDT (dt : PyDateTime) : Prop :=
  1 ≤ dt.year ∧ 1 ≤ dt.month ∧ dt.month ≤ 12 ∧ 1 ≤ dt.day ∧
  dt.day ≤ daysInMonth dt.year dt.month ∧
  dt.hour < 24 ∧ dt.minute < 60 ∧ dt.second < 60 ∧ dt.usec < 1000000

instance (dt : PyDateTime) : Decidable (ValidDT dt) := by unfold ValidDT; infer_instance

/-- The `Reminder` entity (constructor argument order of the Python class). -/
structure Reminder where
  task : String
  frequency : Option String
  delay : Option String
  date_modifier : Option String
  next_execution : Option PyDateTime
  user_id : Int
  chat_id : Int
  user_mention_md : Option String
  reminder_id : Option Nat
deriving DecidableEq, Repr

/-- Python truthiness of an optional string: `None` and `""` are falsy. -/
def truthyS : Option String → Bool
  | none => false
  | some s => s != ""

/-- `Reminder._calc_first_month(now)`: 09:00 on the 1st of the month after
`now`; `replace(hour=..., minute=...)` from the prior value when present. -/
def calcFirstMonth (next : Option PyDateTime) (now : PyDateTime) : PyDateTime :=
  let dt : PyDateTime :=
    if now.month = 12 then ⟨now.year + 1, 1, 1, 9, 0, 0, 0⟩
    else ⟨now.year, now.month + 1, 1, 9, 0, 0, 0⟩
  match next with
  | some p => { dt with hour := p.hour, minute := p.minute }
  | none => dt

/-- `end.replace(hour=h, minute=mi, second=0, microsecond=0)`. -/
def lastDayRepl (e : PyDateTime) (h mi : Nat) : PyDateTime :=
  { e with hour := h, minute := mi, second := 0, usec := 0 }

/-- `Reminder._calc_last_month(now)`.  The base value is
`datetime(y, m+1, 1) - timedelta(days=1)` (the last day of `now`'s own
month); when the prior `next_execution` has the same month number as `now`
the code builds `datetime(y, m+2, 1) - timedelta(days=1)` instead, which
raises `ValueError` (modelled as `none`) when `now.month == 11`. -/
def calcLastMonth (next : Option PyDateTime) (now : PyDateTime) : Option PyDateTime :=
  let base :=
    if now.month = 12 then subOneDay ⟨now.year + 1, 1, 1, 0, 0, 0, 0⟩
    else subOneDay ⟨now.year, now.month + 1, 1, 0, 0, 0, 0⟩
  match next with
  | none => some (lastDayRepl base 9 0)
  | some p =>
    if p.month = now.month then
      if now.month = 12 then
        some (lastDayRepl (subOneDay ⟨now.year + 1, 2, 1, 0, 0, 0, 0⟩) p.hour p.minute)
      else if now.month + 2 ≤ 12 then
        some (lastDayRepl (subOneDay ⟨now.year, now.month + 2, 1, 0, 0, 0, 0⟩) p.hour p.minute)
      else none
    else some (lastDayRepl base p.hour p.minute)

/-- The `daily`/`weekly`/`monthly`/`seconds` chain of
`calculate_next_execution` (reached when the date-modifier block did not
return and the frequency is truthy). -/
def freqStep (rem : Reminder) (now : PyDateTime) : Reminder :=
  if rem.frequency = some "daily" then
    match rem.next_execution with
    | some t =>
      if totalMicro t ≤ totalMicro now then { rem with next_execution := some (addDaysN 1 t) } else rem
    | none => { rem with next_execution := some (addDaysN 1 now) }
  else if rem.frequency = some "weekly" then
    match rem.next_execution with
    | some t =>
      if totalMicro t ≤ totalMicro now then { rem with next_execution := some (addDaysN 7 t) } else rem
    | none => { rem with next_execution := some (addDaysN 7 now) }
  else if rem.frequency = some "monthly" then
    match rem.next_execution with
    | some t =>
      if totalMicro t ≤ totalMicro now then { rem with next_execution := some (addMonths1 t) } else rem
    | none => { rem with next_execution := some (addMonths1 now) }
  else if rem.frequency = some "seconds" then
    { rem with next_execution := some (addSecondsN 5 now) }
  else rem

/-- `Reminder.calculate_next_execution`, taking `now` as an argument.
`none` models an uncaught `ValueError` from `_calc_last_month`.  The truthy
date-modifier gate of the source collapses into the two string equality
tests (the matched literals are truthy, and every other value falls through
to the frequency chain exactly as in the source). -/
def calculate_next_execution (rem : Reminder) (now : PyDateTime) : Option Reminder :=
  if rem.date_modifier = some "first day of every month" then
    some { rem with next_execution := some (calcFirstMonth rem.next_execution now) }
  else if rem.date_modifier = some "last day of every month" then
    (calcLastMonth rem.next_execution now).map fun d => { rem with next_execution := some d }
  else if truthyS rem.frequency = false then some rem
  else some (freqStep rem now)

/-- Numeric value of an ASCII digit character. -/
def dval (c : Char) : Nat := c.toNat - 48

/-- Two mandatory digits (the `%02d` groups of the ISO grammar accepted by
`dateutil.isoparse` on strings this engine writes). -/
def grab2 : List Char → Option (Nat × List Char)
  | a :: b :: rest =>
    if a.isDigit ∧ b.isDigit then some (dval a * 10 + dval b, rest) else none
  | _ => none

/-- Four mandatory digits (the year group). -/
def grab4 (cs : List Char) : Option (Nat × List Char) :=
  match grab2 cs with
  | some (hi, r1) => (grab2 r1).map fun p => (hi * 100 + p.1, p.2)
  | none => none

/-- Six mandatory digits (the microsecond group). -/
def grab6 (cs : List Char) : Option (Nat × List Char) :=
  match grab2 cs with
  | some (hi, r1) => (grab4 r1).map fun p => (hi * 10000 + p.1, p.2)
  | none => none

/-- One mandatory literal character. -/
def expectC (c : Char) : List Char → Option (List Char)
  | a :: rest => if a = c then some rest else none
  | _ => none

/-- Optional fractional-second group `.ffffff`. -/
def grabFrac : List Char → Option (Nat × List Char)
  | '.' :: rest => grab6 rest
  | cs => some (0, cs)

/-- Date part `YYYY-MM-DD`. -/
def parseYMD (cs : List Char) : Option (Nat × Nat × Nat × List Char) := do
  let (y, r1) ← grab4 cs
  let r2 ← expectC '-' r1
  let (mo, r3) ← grab2 r2
  let r4 ← expectC '-' r3
  let (d, r5) ← grab2 r4
  some (y, mo, d, r5)

/-- Time part `HH:MM:SS[.ffffff]`. -/
def parseHMS (cs : List Char) : Option (Nat × Nat × Nat × Nat × List Char) := do
  let (h, r1) ← grab2 cs
  let r2 ← expectC ':' r1
  let (mi, r3) ← grab2 r2
  let r4 ← expectC ':' r3
  let (se, r5) ← grab2 r4
  let (us, r6) ← grabFrac r5
  some (h, mi, se, us, r6)

/-- Offset part `+HH:MM`, ending the string. -/
def parseOffEnd (cs : List Char) : Option (Nat × Nat) := do
  let r1 ← expectC '+' cs
  let (oh, r2) ← grab2 r1
  let r3 ← expectC ':' r2
  let (om, r4) ← grab2 r3
  if r4 = [] then some (oh, om) else none

/-- `dateutil.isoparse`, restricted to the grammar
`YYYY-MM-DDTHH:MM:SS[.ffffff]+HH:MM` that `datetime.isoformat` emits for the
aware datetimes this engine persists; field-range validation mirrors the
`datetime` constructor that `isoparse` ultimately calls. -/
def parseCore (cs : List Char) : Option PyDateTime := do
  let (y, mo, d, r1) ← parseYMD cs
  let r2 ← expectC 'T' r1
  let (h, mi, se, us, r3) ← parseHMS r2
  let (oh, om) ← parseOffEnd r3
  if 1 ≤ y ∧ 1 ≤ mo ∧ mo ≤ 12 ∧ 1 ≤ d ∧ d ≤ daysInMonth y mo ∧
     h ≤ 23 ∧ mi ≤ 59 ∧ se ≤ 59 ∧ oh ≤ 23 ∧ om ≤ 59 then
    some ⟨y, mo, d, h, mi, se, us⟩
  else none

def isoparse (s : String) : Option PyDateTime := parseCore s.data

/-- `%02d`. -/
def pad2 (n : Nat) : List Char := [Nat.digitChar (n / 10), Nat.digitChar (n % 10)]

/-- `%04d`. -/
def pad4 (n : Nat) : List Char := pad2 (n / 100) ++ pad2 (n % 100)

/-- `%06d`. -/
def pad6 (n : Nat) : List Char := pad2 (n / 10000) ++ pad4 (n % 10000)

/-- Character stream of `datetime.isoformat()`: the fractional part is
emitted only for a nonzero microsecond, and the offset suffix is the fixed
Kyiv wall-clock tag. -/
def isoChars (dt : PyDateTime) : List Char :=
  pad4 dt.year ++ '-' :: (pad2 dt.month ++ '-' :: (pad2 dt.day ++ 'T' ::
    (pad2 dt.hour ++ ':' :: (pad2 dt.minute ++ ':' :: (pad2 dt.second ++
      ((if dt.usec = 0 then [] else '.' :: pad6 dt.usec) ++ ['+', '0', '3', ':', '0', '0']))))))

def isoformat (dt : PyDateTime) : String := String.mk (isoChars dt)

/-- A row of the `reminders` table. -/
structure Row where
  reminder_id : Nat
  task : String
  frequency : Option String
  delay : Option String
  date_modifier : Option String
  next_execution : Option String
  user_id : Int
  chat_id : Int
  user_mention_md : Option String
deriving DecidableEq, Repr

/-- The row written for a reminder under key `i`
(`Reminder.to_tuple` with the key filled in). -/
def toRow (rem : Reminder) (i : Nat) : Row :=
  ⟨i, rem.task, rem.frequency, rem.delay, rem.date_modifier,
   rem.next_execution.map isoformat, rem.user_id, rem.chat_id, rem.user_mention_md⟩

/-- `Reminder.from_tuple`; `none` models the exception `isoparse` raises on
an unreadable TEXT value (the parsed value always carries an offset, so the
`localize` fallback of the source is never taken). -/
def from_tuple (r : Row) : Option Reminder :=
  match r.next_execution with
  | none =>
    some ⟨r.task, r.frequency, r.delay, r.date_modifier, none,
          r.user_id, r.chat_id, r.user_mention_md, some r.reminder_id⟩
  | some s =>
    (isoparse s).map fun dt =>
      ⟨r.task, r.frequency, r.delay, r.date_modifier, some dt,
       r.user_id, r.chat_id, r.user_mention_md, some r.reminder_id⟩

/-- The sqlite table plus the `AUTOINCREMENT` counter (`lastrowid` source). -/
structure Store where
  rows : List Row
  nextId : Nat
deriving DecidableEq, Repr

/-- `ReminderManager.save_reminder` at the store level.  A truthy
`reminder_id` issues `UPDATE ... WHERE reminder_id=?` (replacing the matching
row and silently touching nothing when no row matches); otherwise an
`INSERT` appends a fresh row and the assigned key is written back. -/
def save_reminder (st : Store) (rem : Reminder) : Store × Reminder :=
  match rem.reminder_id with
  | some i =>
    if i ≠ 0 then
      (⟨st.rows.map fun row => if row.reminder_id = i then toRow rem i else row, st.nextId⟩, rem)
    else
      (⟨st.rows ++ [toRow rem st.nextId], st.nextId + 1⟩,
       { rem with reminder_id := some st.nextId })
  | none =>
    (⟨st.rows ++ [toRow rem st.nextId], st.nextId + 1⟩,
     { rem with reminder_id := some st.nextId })

/-- The list comprehension `[Reminder.from_tuple(r) for r in rows]`: the
whole load fails if any row fails to parse. -/
def optMapAll {α β : Type} (f : α → Option β) : List α → Option (List β)
  | [] => some []
  | a :: l =>
    match f a, optMapAll f l with
    | some b, some bs => some (b :: bs)
    | _, _ => none

/-- `ReminderManager.load_reminders(chat_id=None)`; a zero `chat_id` is falsy
in Python and loads every row, like `None`. -/
def load_reminders (st : Store) (chat : Option Int) : Option (List Reminder) :=
  match chat with
  | some c =>
    if c ≠ 0 then optMapAll from_tuple (st.rows.filter fun row => row.chat_id == c)
    else optMapAll from_tuple st.rows
  | none => optMapAll from_tuple st.rows

/-- Observable engine state: store, in-memory cache (`self.reminders`),
pending job-queue entries (name, payload), messages handed to the transport,
and `error_logger` lines. -/
structure SysState where
  store : Store
  mem : List Reminder
  jobs : List (String × Reminder)
  sent : List (Int × String)
  logs : List String
deriving DecidableEq, Repr

/-- `f"reminder_{rem.reminder_id}"`. -/
def jobName (i : Option Nat) : String :=
  "reminder_" ++ (match i with | some n => toString n | none => "None")

/-- Characters escaped by `telegram.helpers.escape_markdown(version=2)`. -/
def tgSpecials : List Char :=
  ['_', '*', '[', ']', '(', ')', '~', Char.ofNat 96, '>', '#', '+', '-', '=',
   '|', Char.ofNat 123, Char.ofNat 125, '.', '!']

def escape_markdown (s : String) : String :=
  String.mk ((s.data.map fun c => if tgSpecials.contains c then ['\\', c] else [c]).flatten)

/-- `ReminderManager.remove_reminder`: `DELETE ... WHERE reminder_id = ?`
(an SQL comparison with NULL never matches) and the in-memory filter by
Python `!=` on the ids. -/
def remove_reminder (s : SysState) (rem : Reminder) : SysState :=
  let rows2 :=
    match rem.reminder_id with
    | some i => s.store.rows.filter fun row => row.reminder_id != i
    | none => s.store.rows
  ⟨⟨rows2, s.store.nextId⟩, s.mem.filter fun r => r.reminder_id != rem.reminder_id,
   s.jobs, s.sent, s.logs⟩

/-- `save_reminder` at the manager level: the store write followed by the
`self.reminders = self.load_reminders()` cache resync (which raises, hence
`none`, if any persisted row no longer parses). -/
def managerSave (s : SysState) (rem : Reminder) : Option (SysState × Reminder) :=
  let p := save_reminder s.store rem
  (optMapAll from_tuple p.1.rows).map fun mem2 =>
    (⟨p.1, mem2, s.jobs, s.sent, s.logs⟩, p.2)

/-- `ReminderManager.send_reminder`, with the delivery outcome of
`context.bot.send_message` made explicit: a successful send appends to
`sent`, a transport error is caught and appends to `logs`; either way the
recurrence step, the store write and re-arm (or the delete of a one-time
reminder) follow. -/
def send_reminder (s : SysState) (rem : Reminder) (now : PyDateTime) (deliveryOk : Bool) :
    Option SysState :=
  let etask := escape_markdown rem.task
  let msg :=
    if rem.chat_id < 0 ∧ truthyS rem.frequency = false ∧ truthyS rem.user_mention_md = true then
      (match rem.user_mention_md with | some m => m | none => "") ++ ": " ++ etask
    else "⏰ REMINDER: " ++ etask
  let s1 : SysState :=
    if deliveryOk then ⟨s.store, s.mem, s.jobs, s.sent ++ [(rem.chat_id, msg)], s.logs⟩
    else ⟨s.store, s.mem, s.jobs, s.sent, s.logs ++ ["Sending reminder failed"]⟩
  match calculate_next_execution rem now with
  | none => none
  | some rem2 =>
    if truthyS rem2.frequency = true ∨ truthyS rem2.date_modifier = true then
      (managerSave s1 rem2).map fun q =>
        ⟨q.1.store, q.1.mem, q.1.jobs ++ [(jobName q.2.reminder_id, q.2)], q.1.sent, q.1.logs⟩
    else some (remove_reminder s1 rem2)

/-- The `delete <id>` branch of `ReminderManager.remind` for a numeric id:
look the reminder up in the in-memory cache by id and chat, delete it if
found; no job-queue entry is touched in this branch. -/
def remind_delete_one (s : SysState) (chatId : Int) (rid : Nat) : SysState × String :=
  match s.mem.find? (fun r => r.reminder_id == some rid && r.chat_id == chatId) with
  | some rem => (remove_reminder s rem, "Deleted reminder " ++ toString rid)
  | none => (s, "Invalid ID.")

/-- Lowercased character stream (`text.lower()` / `re.IGNORECASE`). -/
def lowerData (s : String) : List Char := s.data.map Char.toLower

/-- The default whitespace set of Python `str.strip` and of `\s` (ASCII). -/
def pyIsSpace (c : Char) : Bool :=
  c == ' ' || c == '\t' || c == '\n' || c == '\r' || c == '\x0b' || c == '\x0c'

def pstripList (cs : List Char) : List Char :=
  ((cs.dropWhile pyIsSpace).reverse.dropWhile pyIsSpace).reverse

/-- Python `str.strip()`. -/
def pstrip (s : String) : String := String.mk (pstripList s.data)

/-- Leftmost index at or below `bound` accepted by `p` (how `re.search`
scans candidate match starts). -/
def scanFirst (p : Nat → Bool) (bound : Nat) : Option Nat :=
  (List.range (bound + 1)).find? p

/-- `\w` of Python `re` on ASCII text. -/
def isWordChar (c : Char) : Bool := c.isAlphanum || c == '_'

def charAt (cs : List Char) (i : Nat) : Char := cs.getD i ' '

/-- `\b` before position `j` (the patterns below start with a word char). -/
def boundaryBefore (cs : List Char) (j : Nat) : Bool :=
  j == 0 || !isWordChar (charAt cs (j - 1))

/-- `\b` at position `j` (the patterns below end with a word char); out of
range the default `charAt` is a space, a non-word char, as required. -/
def boundaryAt (cs : List Char) (j : Nat) : Bool := !isWordChar (charAt cs j)

/-- The literal `pat` matches at position `j`. -/
def subAt (cs pat : List Char) (j : Nat) : Bool := pat.isPrefixOf (cs.drop j)

/-- A `\b<literal>\b` pattern matches at `j`. -/
def wordMatchAt (cs pat : List Char) (j : Nat) : Bool :=
  boundaryBefore cs j && subAt cs pat j && boundaryAt cs (j + pat.length)

/-- Length of the maximal digit run at `j` (`\d+` is greedy and nothing
after it can absorb a digit, so no backtracking is possible). -/
def digitRun (cs : List Char) (j : Nat) : Nat :=
  ((cs.drop j).takeWhile Char.isDigit).length

def natOfDigits (cs : List Char) : Nat := cs.foldl (fun acc c => acc * 10 + dval c) 0

/-- The expansions of the unit alternation
`(seconds?|secs?|s|minutes?|mins?|m|hours?|hrs?|h|days?|months?)` in the
order the regex engine tries them (each `X?` greedy). -/
def unitExpansions : List (List Char) :=
  (["seconds", "second", "secs", "sec", "s", "minutes", "minute", "mins", "min", "m",
    "hours", "hour", "hrs", "hr", "h", "days", "day", "months", "month"].map String.data)

/-- `\bin \d+ (<units>)\b` matches at `j` (literal spaces; the trailing `\b`
makes only the existence of a fitting expansion matter). -/
def inWordPatternAt (cs : List Char) (j : Nat) : Bool :=
  boundaryBefore cs j && subAt cs "in ".data j &&
  (let k := digitRun cs (j + 3)
   k != 0 && charAt cs (j + 3 + k) == ' ' &&
   unitExpansions.any fun u => subAt cs u (j + 4 + k) && boundaryAt cs (j + 4 + k + u.length))

/-- `\bat \d{1,2}:\d{2}\b` matches at `j`: the engine tries the two-digit
hour first and backtracks to one digit, and the trailing `\b` must hold. -/
def atWordPatternAt (cs : List Char) (j : Nat) : Bool :=
  boundaryBefore cs j && subAt cs "at ".data j &&
  ((charAt cs (j + 3)).isDigit && (charAt cs (j + 4)).isDigit && charAt cs (j + 5) == ':' &&
     (charAt cs (j + 6)).isDigit && (charAt cs (j + 7)).isDigit && boundaryAt cs (j + 8) ||
   (charAt cs (j + 3)).isDigit && charAt cs (j + 4) == ':' &&
     (charAt cs (j + 5)).isDigit && (charAt cs (j + 6)).isDigit && boundaryAt cs (j + 7))

/-- The `time_patterns` list of `extract_task_and_time`, in source order. -/
def timePatternMatchers (cs : List Char) : List (Nat → Bool) :=
  [wordMatchAt cs "every day".data, wordMatchAt cs "daily".data,
   wordMatchAt cs "everyday".data, wordMatchAt cs "every week".data,
   wordMatchAt cs "weekly".data, wordMatchAt cs "every month".data,
   wordMatchAt cs "monthly".data, wordMatchAt cs "every second".data,
   inWordPatternAt cs, atWordPatternAt cs]

/-- Match start of the first pattern (in list order) that matches anywhere:
the loop of `extract_task_and_time`. -/
def timeMatchStart (text : String) : Option Nat :=
  let cs := lowerData text
  (timePatternMatchers cs).findSome? fun p => scanFirst p cs.length

/-- Earliest position where one of the alternatives matches: group(1) of
`(.*?)(?:alt1|alt2|...)(?:.*)` ends at this position. -/
def earliestAlt (cs : List Char) (alts : List (List Char)) : Option Nat :=
  scanFirst (fun j => alts.any fun a => subAt cs a j) cs.length

/-- group(1) of the `first_day_pattern` regex. -/
def firstDayG1 (text : String) : Option String :=
  (earliestAlt (lowerData text)
      (["on the first", "on first", "first of", "first day of"].map String.data)).map
    fun q => String.mk (text.data.take q)

/-- group(1) of the `last_day_pattern` regex. -/
def lastDayG1 (text : String) : Option String :=
  (earliestAlt (lowerData text)
      (["on the last", "on last", "last day of"].map String.data)).map
    fun q => String.mk (text.data.take q)

/-- One special-case branch of `extract_task_and_time`: taken only when the
pattern matched and `group(1).strip()` is non-empty; note the source slices
`text[len(task):]` with the length of the *stripped* task. -/
def dayBranch (g1 : Option String) (text : String) : Option (String × String) :=
  match g1 with
  | none => none
  | some g =>
    let t := pstrip g
    if t = "" then none
    else some (t, pstrip (String.mk (text.data.drop t.length)))

/-- `ReminderManager.extract_task_and_time`. -/
def extract_task_and_time (text : String) : String × String :=
  match dayBranch (firstDayG1 text) text with
  | some r => r
  | none =>
  match dayBranch (lastDayG1 text) text with
  | some r => r
  | none =>
  match timeMatchStart text with
  | none => (text, "")
  | some s =>
    let pt := pstrip (String.mk (text.data.take s))
    (if pt = "" then text else pt, pstrip (String.mk (text.data.drop s)))

/-- Python `needle in haystack`. -/
def hasSub (cs : List Char) (pat : String) : Bool :=
  (scanFirst (fun j => subAt cs pat.data j) cs.length).isSome

/-- The `norm` dictionary lookup `.get(unit, unit)` of `parse`. -/
def normUnit (u : String) : String :=
  if u = "s" ∨ u = "sec" ∨ u = "secs" ∨ u = "seconds" then "second"
  else if u = "m" ∨ u = "min" ∨ u = "mins" ∨ u = "minutes" then "minute"
  else if u = "h" ∨ u = "hr" ∨ u = "hrs" ∨ u = "hours" then "hour"
  else if u = "day" ∨ u = "days" then "day"
  else if u = "month" ∨ u = "months" then "month"
  else u

/-- The plural-display chain of `parse`. -/
def displayUnit (n : String) : String :=
  if n = "second" then "seconds"
  else if n = "minute" then "minutes"
  else if n = "hour" then "hours"
  else if n = "day" then "days"
  else if n = "month" then "months"
  else n ++ "s"

/-- `in\s+(\d+)\s*(<units>)` attempted at position `j` on the lowercased
text: greedy whitespace and digit runs cannot backtrack usefully, and with
no trailing boundary the first expansion that fits is captured. -/
def delayMatchAt (cs : List Char) (j : Nat) : Option (Nat × String) :=
  if subAt cs "in".data j then
    let w := ((cs.drop (j + 2)).takeWhile pyIsSpace).length
    if w == 0 then none
    else
      let k := digitRun cs (j + 2 + w)
      if k == 0 then none
      else
        let w2 := ((cs.drop (j + 2 + w + k)).takeWhile pyIsSpace).length
        match unitExpansions.find? (fun u => subAt cs u (j + 2 + w + k + w2)) with
        | some u => some (natOfDigits ((cs.drop (j + 2 + w)).take k), String.mk u)
        | none => none
  else none

/-- `re.search` of the delay pattern: the leftmost start that matches. -/
def delaySearch (cs : List Char) : Option (Nat × String) :=
  (scanFirst (fun j => (delayMatchAt cs j).isSome) cs.length).bind fun j => delayMatchAt cs j

/-- `at\s+(\d{1,2}):(\d{2})` attempted at position `j` (no word boundaries
in this one; two-digit hour tried before one digit). -/
def timeSearchAt (cs : List Char) (j : Nat) : Option (Nat × Nat) :=
  if subAt cs "at".data j then
    let w := ((cs.drop (j + 2)).takeWhile pyIsSpace).length
    if w == 0 then none
    else
      let p := j + 2 + w
      if (charAt cs p).isDigit && (charAt cs (p + 1)).isDigit && charAt cs (p + 2) == ':' &&
         (charAt cs (p + 3)).isDigit && (charAt cs (p + 4)).isDigit then
        some (dval (charAt cs p) * 10 + dval (charAt cs (p + 1)),
              dval (charAt cs (p + 3)) * 10 + dval (charAt cs (p + 4)))
      else if (charAt cs p).isDigit && charAt cs (p + 1) == ':' &&
         (charAt cs (p + 2)).isDigit && (charAt cs (p + 3)).isDigit then
        some (dval (charAt cs p), dval (charAt cs (p + 2)) * 10 + dval (charAt cs (p + 3)))
      else none
  else none

/-- `re.search` of the time pattern: the leftmost start that matches. -/
def timeSearch (cs : List Char) : Option (Nat × Nat) :=
  (scanFirst (fun j => (timeSearchAt cs j).isSome) cs.length).bind fun j => timeSearchAt cs j

/-- The dictionary returned by `ReminderManager.parse`. -/
structure ParseResult where
  task : String
  frequency : Option String
  date_modifier : Option String
  time : Option (Nat × Nat)
  delay : Option String
deriving DecidableEq, Repr

/-- `ReminderManager.parse`. -/
def parse (text : String) : ParseResult :=
  let task := (extract_task_and_time text).1
  let low := lowerData text
  let freq0 : Option String :=
    if hasSub low "every day" || hasSub low "daily" || hasSub low "everyday" then some "daily"
    else if hasSub low "every week" || hasSub low "weekly" then some "weekly"
    else if hasSub low "every month" || hasSub low "monthly" then some "monthly"
    else if hasSub low "every second" then some "seconds"
    else none
  let md : Option String :=
    if hasSub low "last day of every month" || hasSub low "last day of month" then
      some "last day of every month"
    else if hasSub low "first day of every month" || hasSub low "first of every month" then
      some "first day of every month"
    else none
  let freq1 := if md.isSome then some "monthly" else freq0
  let delay := (delaySearch low).map fun p => "in " ++ toString p.1 ++ " " ++ displayUnit (normUnit p.2)
  let time := timeSearch low
  ⟨task, freq1, md, time, delay⟩

theorem daysInMonth_pos (y m : Nat) (h1 : 1 ≤ m) (h2 : m ≤ 12) : 1 ≤ daysInMonth y m := by
  unfold daysInMonth
  by_cases hl : isLeap y <;> interval_cases m <;> simp [hl]

theorem daysInMonth_le31 (y m : Nat) : daysInMonth y m ≤ 31 := by
  unfold daysInMonth
  split
  · split <;> omega
  · split <;> omega

theorem dbm_step (y m : Nat) (h1 : 1 ≤ m) (h2 : m ≤ 11) :
    daysBeforeMonth y (m + 1) = daysBeforeMonth y m + daysInMonth y m := by
  by_cases hl : isLeap y <;> interval_cases m <;>
    simp [daysBeforeMonth, daysBeforeMonthBase, daysInMonth, hl]

theorem dbm_mono (y : Nat) {m m' : Nat} (h1 : 1 ≤ m) (h2 : m ≤ m') (h3 : m' ≤ 12) :
    daysBeforeMonth y m ≤ daysBeforeMonth y m' := by
  have h4 : m ≤ 12 := le_trans h2 h3
  unfold daysBeforeMonth
  by_cases hl : isLeap y <;>
    · simp only [hl, and_true, and_false, if_false]
      interval_cases m <;> interval_cases m' <;> simp [daysBeforeMonthBase]

theorem dbm_dim_le (y m : Nat) (h1 : 1 ≤ m) (h2 : m ≤ 12) :
    daysBeforeMonth y m + daysInMonth y m ≤ 365 + (if isLeap y then 1 else 0) := by
  unfold daysBeforeMonth daysInMonth
  by_cases hl : isLeap y <;>
    · simp only [hl, and_true, and_false, if_false, if_true]
      interval_cases m <;> simp [daysBeforeMonthBase]

set_option maxHeartbeats 2000000 in
theorem dby_step (y : Nat) (h : 1 ≤ y) :
    daysBeforeYear (y + 1) = daysBeforeYear y + 365 + (if isLeap y then 1 else 0) := by
  obtain ⟨k, rfl⟩ : ∃ k, y = k + 1 := ⟨y - 1, by omega⟩
  have e1 : k + 1 + 1 - 1 = k + 1 := by omega
  have e2 : k + 1 - 1 = k := by omega
  by_cases hl : isLeap (k + 1)
  · rw [if_pos hl]
    unfold daysBeforeYear
    rw [e1, e2]
    unfold isLeap at hl
    omega
  · rw [if_neg hl]
    unfold daysBeforeYear
    rw [e1, e2]
    unfold isLeap at hl
    omega

theorem dby_mono {y y' : Nat} (h : y ≤ y') : daysBeforeYear y ≤ daysBeforeYear y' := by
  have h4 : (y - 1) / 4 ≤ (y' - 1) / 4 := Nat.div_le_div_right (by omega)
  have h100 : (y - 1) / 100 ≤ (y' - 1) / 100 := Nat.div_le_div_right (by omega)
  have h400 : (y - 1) / 400 ≤ (y' - 1) / 400 := Nat.div_le_div_right (by omega)
  unfold daysBeforeYear
  omega

theorem sod_lt (dt : PyDateTime) (h : ValidDT dt) : secOfDay dt < 86400 := by
  obtain ⟨_, _, _, _, _, h6, h7, h8, _⟩ := h
  unfold secOfDay
  omega

theorem micro_lt_of_ord_lt {a b : PyDateTime} (hsod : secOfDay a < 86400)
    (husec : a.usec < 1000000) (h : toOrdinal a < toOrdinal b) :
    totalMicro a < totalMicro b := by
  unfold totalMicro
  omega

theorem micro_le_of_ord_le_sod {a b : PyDateTime} (hord : toOrdinal a ≤ toOrdinal b)
    (hsod : secOfDay a ≤ secOfDay b) (hu : a.usec ≤ b.usec) :
    totalMicro a ≤ totalMicro b := by
  unfold totalMicro
  omega

/-- End of `a`'s month lies strictly before the start of a lexicographically
later month. -/
theorem eom_lt_som {y m y' m' : Nat} (hy : 1 ≤ y) (h1 : 1 ≤ m) (h2 : m ≤ 12)
    (h1' : 1 ≤ m') (h2' : m' ≤ 12) (hlt : y < y' ∨ (y = y' ∧ m < m')) :
    daysBeforeYear y + daysBeforeMonth y m + daysInMonth y m <
      daysBeforeYear y' + daysBeforeMonth y' m' + 1 := by
  rcases hlt with hy' | ⟨rfl, hm⟩
  · have h365 := dbm_dim_le y m h1 h2
    have hstep := dby_step y hy
    have hmono : daysBeforeYear (y + 1) ≤ daysBeforeYear y' := dby_mono hy'
    by_cases hl : isLeap y
    · rw [if_pos hl] at h365 hstep
      omega
    · rw [if_neg hl] at h365 hstep
      omega
  · have hstep := dbm_step y m h1 (by omega)
    have hmono : daysBeforeMonth y (m + 1) ≤ daysBeforeMonth y m' :=
      dbm_mono y (by omega) hm h2'
    omega

theorem ord_le_eom {dt : PyDateTime} (h : ValidDT dt) :
    toOrdinal dt ≤ daysBeforeYear dt.year + daysBeforeMonth dt.year dt.month + daysInMonth dt.year dt.month := by
  obtain ⟨_, _, _, _, h5, _⟩ := h
  unfold toOrdinal
  omega

/-- Months compare lexicographically whenever the instants do. -/
theorem lex_le_of_micro_le {a b : PyDateTime} (ha : ValidDT a) (hb : ValidDT b)
    (h : totalMicro a ≤ totalMicro b) :
    a.year < b.year ∨ (a.year = b.year ∧ a.month ≤ b.month) := by
  by_contra hc
  push_neg at hc
  have hlex : b.year < a.year ∨ (b.year = a.year ∧ b.month < a.month) := by
    rcases Nat.lt_trichotomy a.year b.year with h1 | h1 | h1
    · exact absurd h1 (by omega)
    · right
      exact ⟨h1.symm, by
        have := hc.2 h1
        omega⟩
    · left
      exact h1
  have hord : toOrdinal b < toOrdinal a := by
    have h1 := eom_lt_som (hb.1) (hb.2.1) (hb.2.2.1) (ha.2.1) (ha.2.2.1) hlex
    have h2 := ord_le_eom hb
    have h3 : daysBeforeYear a.year + daysBeforeMonth a.year a.month + 1 ≤ toOrdinal a := by
      have := ha.2.2.2.1
      unfold toOrdinal
      omega
    omega
  exact absurd h (by
    have := micro_lt_of_ord_lt (sod_lt b hb) hb.2.2.2.2.2.2.2.2 hord
    omega)

theorem dbm_at_12 (y : Nat) :
    daysBeforeMonth y 12 = 334 + (if isLeap y then 1 else 0) := by
  by_cases hl : isLeap y
  · simp [daysBeforeMonth, daysBeforeMonthBase, hl]
  · simp [daysBeforeMonth, daysBeforeMonthBase, hl]

theorem dbm_at_1 (y : Nat) : daysBeforeMonth y 1 = 0 := by
  simp [daysBeforeMonth, daysBeforeMonthBase]

theorem dim_at_12 (y : Nat) : daysInMonth y 12 = 31 := by
  simp [daysInMonth]

theorem addOneDay_ordinal {dt : PyDateTime} (h : ValidDT dt) :
    toOrdinal (addOneDay dt) = toOrdinal dt + 1 := by
  obtain ⟨Y, M, D, H, Mi, S, U⟩ := dt
  obtain ⟨hy, hm1, hm2, hd1, hd2, _⟩ := h
  unfold addOneDay
  dsimp only at *
  by_cases hlt : D < daysInMonth Y M
  · rw [if_pos hlt]
    unfold toOrdinal
    dsimp only
    omega
  · rw [if_neg hlt]
    have hday : D = daysInMonth Y M := by omega
    by_cases hm : M < 12
    · rw [if_pos hm]
      have hstep := dbm_step Y M hm1 (by omega)
      unfold toOrdinal
      dsimp only
      omega
    · rw [if_neg hm]
      have hm12 : M = 12 := by omega
      have hstep := dby_step Y hy
      have h334 := dbm_at_12 Y
      have h0 := dbm_at_1 (Y + 1)
      have h31 := dim_at_12 Y
      subst hm12
      unfold toOrdinal
      dsimp only
      by_cases hl : isLeap Y
      · rw [if_pos hl] at hstep h334
        omega
      · rw [if_neg hl] at hstep h334
        omega

theorem validDT_mk {Y M D H Mi S U : Nat} (h1 : 1 ≤ Y) (h2 : 1 ≤ M) (h3 : M ≤ 12)
    (h4 : 1 ≤ D) (h5 : D ≤ daysInMonth Y M) (h6 : H < 24) (h7 : Mi < 60) (h8 : S < 60)
    (h9 : U < 1000000) : ValidDT ⟨Y, M, D, H, Mi, S, U⟩ :=
  ⟨h1, h2, h3, h4, h5, h6, h7, h8, h9⟩

theorem addOneDay_valid {dt : PyDateTime} (h : ValidDT dt) : ValidDT (addOneDay dt) := by
  obtain ⟨Y, M, D, H, Mi, S, U⟩ := dt
  obtain ⟨hy, hm1, hm2, hd1, hd2, h6, h7, h8, h9⟩ := h
  unfold addOneDay
  dsimp only at *
  by_cases hlt : D < daysInMonth Y M
  · rw [if_pos hlt]
    exact validDT_mk hy hm1 hm2 (by omega) (by omega) h6 h7 h8 h9
  · rw [if_neg hlt]
    by_cases hm : M < 12
    · rw [if_pos hm]
      exact validDT_mk hy (by omega) (by omega) (by omega)
        (daysInMonth_pos Y (M + 1) (by omega) (by omega)) h6 h7 h8 h9
    · rw [if_neg hm]
      exact validDT_mk (by omega) (by omega) (by omega) (by omega)
        (daysInMonth_pos (Y + 1) 1 (by omega) (by omega)) h6 h7 h8 h9

theorem addOneDay_time (dt : PyDateTime) :
    (addOneDay dt).hour = dt.hour ∧ (addOneDay dt).minute = dt.minute ∧
    (addOneDay dt).second = dt.second ∧ (addOneDay dt).usec = dt.usec := by
  unfold addOneDay
  split
  · exact ⟨rfl, rfl, rfl, rfl⟩
  · split
    · exact ⟨rfl, rfl, rfl, rfl⟩
    · exact ⟨rfl, rfl, rfl, rfl⟩

theorem addDaysN_spec (n : Nat) (dt : PyDateTime) (h : ValidDT dt) :
    toOrdinal (addDaysN n dt) = toOrdinal dt + n ∧ ValidDT (addDaysN n dt) ∧
    (addDaysN n dt).hour = dt.hour ∧ (addDaysN n dt).minute = dt.minute ∧
    (addDaysN n dt).second = dt.second ∧ (addDaysN n dt).usec = dt.usec := by
  induction n generalizing dt with
  | zero => exact ⟨rfl, h, rfl, rfl, rfl, rfl⟩
  | succ k ih =>
    have h1 := addOneDay_valid h
    obtain ⟨i1, i2, i3, i4, i5, i6⟩ := ih (addOneDay dt) h1
    have e := addOneDay_ordinal h
    obtain ⟨t1, t2, t3, t4⟩ := addOneDay_time dt
    have ed : addDaysN (k + 1) dt = addDaysN k (addOneDay dt) := rfl
    rw [ed]
    exact ⟨by omega, i2, i3.trans t1, i4.trans t2, i5.trans t3, i6.trans t4⟩

theorem addDaysN_micro (n : Nat) (dt : PyDateTime) (h : ValidDT dt) :
    totalMicro (addDaysN n dt) = totalMicro dt + n * 86400000000 := by
  obtain ⟨e1, _, e3, e4, e5, e6⟩ := addDaysN_spec n dt h
  unfold totalMicro secOfDay
  rw [e1, e3, e4, e5, e6]
  ring

theorem dim_at_1 (y : Nat) : daysInMonth y 1 = 31 := by
  simp [daysInMonth]

theorem subOneDay_firstOf (y m : Nat) (hm : 1 ≤ m) :
    subOneDay ⟨y, m + 1, 1, 0, 0, 0, 0⟩ = ⟨y, m, daysInMonth y m, 0, 0, 0, 0⟩ := by
  unfold subOneDay
  dsimp only
  rw [if_neg (by omega), if_pos (by omega)]
  simp

theorem subOneDay_jan1 (y : Nat) :
    subOneDay ⟨y + 1, 1, 1, 0, 0, 0, 0⟩ = ⟨y, 12, 31, 0, 0, 0, 0⟩ := by
  unfold subOneDay
  dsimp only
  rw [if_neg (by omega), if_neg (by omega)]
  simp

theorem addMonths1_micro_lt {dt : PyDateTime} (h : ValidDT dt) :
    totalMicro dt < totalMicro (addMonths1 dt) := by
  obtain ⟨Y, M, D, H, Mi, S, U⟩ := dt
  obtain ⟨hy, hm1, hm2, hd1, hd2, h6, h7, h8, h9⟩ := h
  dsimp only at *
  unfold addMonths1
  dsimp only
  by_cases hm : M = 12
  · rw [if_pos hm]
    subst hm
    apply micro_lt_of_ord_lt (by unfold secOfDay; dsimp only; omega) (by dsimp only; omega)
    have e1 : daysBeforeYear Y + daysBeforeMonth Y 12 + daysInMonth Y 12 <
        daysBeforeYear (Y + 1) + daysBeforeMonth (Y + 1) 1 + 1 :=
      eom_lt_som hy (by omega) (by omega) (by omega) (by omega) (Or.inl (by omega))
    have e2 := daysInMonth_pos (Y + 1) 1 (by omega) (by omega)
    unfold toOrdinal
    dsimp only
    omega
  · rw [if_neg hm]
    apply micro_lt_of_ord_lt (by unfold secOfDay; dsimp only; omega) (by dsimp only; omega)
    have e1 : daysBeforeYear Y + daysBeforeMonth Y M + daysInMonth Y M <
        daysBeforeYear Y + daysBeforeMonth Y (M + 1) + 1 :=
      eom_lt_som hy hm1 hm2 (by omega) (by omega) (Or.inr ⟨rfl, by omega⟩)
    have e2 := daysInMonth_pos Y (M + 1) (by omega) (by omega)
    unfold toOrdinal
    dsimp only
    omega

theorem addSecondsN_micro (s : Nat) (dt : PyDateTime) (h : ValidDT dt) :
    totalMicro (addSecondsN s dt) = totalMicro dt + s * 1000000 := by
  obtain ⟨Y, M, D, H, Mi, S, U⟩ := dt
  obtain ⟨hy, hm1, hm2, hd1, hd2, h6, h7, h8, h9⟩ := h
  dsimp only at *
  unfold addSecondsN
  dsimp only
  have hmid : ValidDT ⟨Y, M, D,
      (secOfDay ⟨Y, M, D, H, Mi, S, U⟩ + s) % 86400 / 3600,
      (secOfDay ⟨Y, M, D, H, Mi, S, U⟩ + s) % 86400 % 3600 / 60,
      (secOfDay ⟨Y, M, D, H, Mi, S, U⟩ + s) % 86400 % 60, U⟩ :=
    validDT_mk hy hm1 hm2 hd1 hd2 (by omega) (by omega) (by omega) h9
  rw [addDaysN_micro _ _ hmid]
  unfold totalMicro secOfDay toOrdinal
  dsimp only
  omega

theorem calcFirstMonth_gt (next : Option PyDateTime) (now : PyDateTime) (h : ValidDT now) :
    totalMicro now < totalMicro (calcFirstMonth next now) := by
  obtain ⟨Y, M, D, H, Mi, S, U⟩ := now
  obtain ⟨hy, hm1, hm2, hd1, hd2, h6, h7, h8, h9⟩ := h
  dsimp only at *
  unfold calcFirstMonth
  dsimp only
  by_cases hm : M = 12
  · rw [if_pos hm]
    subst hm
    have e1 : daysBeforeYear Y + daysBeforeMonth Y 12 + daysInMonth Y 12 <
        daysBeforeYear (Y + 1) + daysBeforeMonth (Y + 1) 1 + 1 :=
      eom_lt_som hy (by omega) (by omega) (by omega) (by omega) (Or.inl (by omega))
    cases next with
    | none =>
      apply micro_lt_of_ord_lt (by unfold secOfDay; dsimp only; omega) (by dsimp only; omega)
      unfold toOrdinal
      dsimp only
      omega
    | some p =>
      apply micro_lt_of_ord_lt (by unfold secOfDay; dsimp only; omega) (by dsimp only; omega)
      unfold toOrdinal
      dsimp only
      omega
  · rw [if_neg hm]
    have e1 : daysBeforeYear Y + daysBeforeMonth Y M + daysInMonth Y M <
        daysBeforeYear Y + daysBeforeMonth Y (M + 1) + 1 :=
      eom_lt_som hy hm1 hm2 (by omega) (by omega) (Or.inr ⟨rfl, by omega⟩)
    cases next with
    | none =>
      apply micro_lt_of_ord_lt (by unfold secOfDay; dsimp only; omega) (by dsimp only; omega)
      unfold toOrdinal
      dsimp only
      omega
    | some p =>
      apply micro_lt_of_ord_lt (by unfold secOfDay; dsimp only; omega) (by dsimp only; omega)
      unfold toOrdinal
      dsimp only
      omega


/-- Whenever `_calc_last_month` returns without raising and the prior value
is due (`p ≤ now`), the produced timestamp is strictly after the prior. -/
theorem calcLastMonth_strict {p now r : PyDateTime} (hnow : ValidDT now) (hp : ValidDT p)
    (hle : totalMicro p ≤ totalMicro now)
    (hr : calcLastMonth (some p) now = some r) :
    totalMicro p < totalMicro r := by
  have hlex := lex_le_of_micro_le hp hnow hle
  obtain ⟨Y, M, D, H, Mi, S, U⟩ := now
  have hpy := hp.1
  have hpm1 := hp.2.1
  have hpm2 := hp.2.2.1
  have hpd := hp.2.2.2.2.1
  have hsod := sod_lt p hp
  have hu := hp.2.2.2.2.2.2.2.2
  have hm1 := hnow.2.1
  have hm2 := hnow.2.2.1
  dsimp only at hm1 hm2 hlex
  unfold calcLastMonth at hr
  dsimp only at hr
  by_cases hpm : p.month = M
  · rw [if_pos hpm] at hr
    by_cases h12 : M = 12
    · subst h12
      rw [if_pos rfl] at hr
      rw [subOneDay_firstOf (Y + 1) 1 (by omega)] at hr
      have hr2 := Option.some.inj hr
      rw [← hr2]
      apply micro_lt_of_ord_lt hsod hu
      have e1 : daysBeforeYear p.year + daysBeforeMonth p.year p.month + daysInMonth p.year p.month <
          daysBeforeYear (Y + 1) + daysBeforeMonth (Y + 1) 1 + 1 :=
        eom_lt_som hpy hpm1 hpm2 (by omega) (by omega) (Or.inl (by omega))
      have e2 := daysInMonth_pos (Y + 1) 1 (by omega) (by omega)
      unfold toOrdinal lastDayRepl
      dsimp only
      omega
    · rw [if_neg h12] at hr
      by_cases h11 : M + 2 ≤ 12
      · rw [if_pos h11] at hr
        have hrw : (⟨Y, M + 2, 1, 0, 0, 0, 0⟩ : PyDateTime) = ⟨Y, (M + 1) + 1, 1, 0, 0, 0, 0⟩ := by
          simp
        rw [hrw, subOneDay_firstOf Y (M + 1) (by omega)] at hr
        have hr2 := Option.some.inj hr
        rw [← hr2]
        apply micro_lt_of_ord_lt hsod hu
        have e1 : daysBeforeYear p.year + daysBeforeMonth p.year p.month + daysInMonth p.year p.month <
            daysBeforeYear Y + daysBeforeMonth Y (M + 1) + 1 := by
          rcases hlex with hl1 | ⟨hl2, hl3⟩
          · exact eom_lt_som hpy hpm1 hpm2 (by omega) (by omega) (Or.inl (by omega))
          · exact eom_lt_som hpy hpm1 hpm2 (by omega) (by omega) (Or.inr ⟨hl2, by omega⟩)
        have e2 := daysInMonth_pos Y (M + 1) (by omega) (by omega)
        unfold toOrdinal lastDayRepl
        dsimp only
        omega
      · rw [if_neg h11] at hr
        exact absurd hr (by simp)
  · rw [if_neg hpm] at hr
    by_cases h12 : M = 12
    · subst h12
      rw [if_pos rfl] at hr
      rw [subOneDay_jan1 Y] at hr
      have hr2 := Option.some.inj hr
      rw [← hr2]
      apply micro_lt_of_ord_lt hsod hu
      have e1 : daysBeforeYear p.year + daysBeforeMonth p.year p.month + daysInMonth p.year p.month <
          daysBeforeYear Y + daysBeforeMonth Y 12 + 1 := by
        rcases hlex with hl1 | ⟨hl2, hl3⟩
        · exact eom_lt_som hpy hpm1 hpm2 (by omega) (by omega) (Or.inl (by omega))
        · exact eom_lt_som hpy hpm1 hpm2 (by omega) (by omega) (Or.inr ⟨hl2, by omega⟩)
      unfold toOrdinal lastDayRepl
      dsimp only
      omega
    · rw [if_neg h12] at hr
      rw [subOneDay_firstOf Y M (by omega)] at hr
      have hr2 := Option.some.inj hr
      rw [← hr2]
      apply micro_lt_of_ord_lt hsod hu
      have e1 : daysBeforeYear p.year + daysBeforeMonth p.year p.month + daysInMonth p.year p.month <
          daysBeforeYear Y + daysBeforeMonth Y M + 1 := by
        rcases hlex with hl1 | ⟨hl2, hl3⟩
        · exact eom_lt_som hpy hpm1 hpm2 hm1 hm2 (Or.inl (by omega))
        · exact eom_lt_som hpy hpm1 hpm2 hm1 hm2 (Or.inr ⟨hl2, by omega⟩)
      have e2 := daysInMonth_pos Y M hm1 hm2
      unfold toOrdinal lastDayRepl
      dsimp only
      omega

theorem dval_digitChar : ∀ n < 10, dval (Nat.digitChar n) = n ∧ (Nat.digitChar n).isDigit = true := by
  decide

theorem grab2_pad2 (n : Nat) (h : n < 100) (rest : List Char) :
    grab2 (pad2 n ++ rest) = some (n, rest) := by
  obtain ⟨e1, e2⟩ := dval_digitChar (n / 10) (by omega)
  obtain ⟨e3, e4⟩ := dval_digitChar (n % 10) (by omega)
  simp [pad2, grab2, e1, e2, e3, e4]
  omega

theorem grab4_pad4 (n : Nat) (h : n < 10000) (rest : List Char) :
    grab4 (pad4 n ++ rest) = some (n, rest) := by
  have e : pad4 n ++ rest = pad2 (n / 100) ++ (pad2 (n % 100) ++ rest) := by
    simp [pad4]
  rw [e]
  unfold grab4
  rw [grab2_pad2 _ (by omega)]
  dsimp only
  rw [grab2_pad2 _ (by omega)]
  simp
  omega

theorem grab6_pad6 (n : Nat) (h : n < 1000000) (rest : List Char) :
    grab6 (pad6 n ++ rest) = some (n, rest) := by
  have e : pad6 n ++ rest = pad2 (n / 10000) ++ (pad4 (n % 10000) ++ rest) := by
    simp [pad6]
  rw [e]
  unfold grab6
  rw [grab2_pad2 _ (by omega)]
  dsimp only
  rw [grab4_pad4 _ (by omega)]
  simp
  omega

theorem expectC_cons (c : Char) (rest : List Char) : expectC c (c :: rest) = some rest := by
  simp [expectC]

theorem grabFrac_plus (rest : List Char) : grabFrac ('+' :: rest) = some (0, '+' :: rest) := rfl

theorem grabFrac_dot (rest : List Char) : grabFrac ('.' :: rest) = grab6 rest := rfl

theorem parseOffEnd_val : parseOffEnd ['+', '0', '3', ':', '0', '0'] = some (3, 0) := rfl

theorem parseYMD_iso (y mo d : Nat) (hy : y < 10000) (hmo : mo < 100) (hd : d < 100)
    (rest : List Char) :
    parseYMD (pad4 y ++ '-' :: (pad2 mo ++ '-' :: (pad2 d ++ rest))) = some (y, mo, d, rest) := by
  unfold parseYMD
  simp [grab4_pad4 y hy, expectC_cons, grab2_pad2 mo hmo, grab2_pad2 d hd]

theorem parseHMS_iso (h mi se us : Nat) (hh : h < 100) (hmi : mi < 100) (hse : se < 100)
    (hus : us < 1000000) (rest : List Char) :
    parseHMS (pad2 h ++ ':' :: (pad2 mi ++ ':' :: (pad2 se ++
      ((if us = 0 then [] else '.' :: pad6 us) ++ '+' :: rest)))) = some (h, mi, se, us, '+' :: rest) := by
  unfold parseHMS
  by_cases h0 : us = 0
  · subst h0
    simp [grab2_pad2 h hh, expectC_cons, grab2_pad2 mi hmi, grab2_pad2 se hse, grabFrac_plus]
  · rw [if_neg h0]
    simp [grab2_pad2 h hh, expectC_cons, grab2_pad2 mi hmi, grab2_pad2 se hse, grabFrac_dot,
          grab6_pad6 us hus]

theorem parse_isoChars (dt : PyDateTime) (h : ValidDT dt) (hy : dt.year ≤ 9999) :
    parseCore (isoChars dt) = some dt := by
  obtain ⟨Y, M, D, H, Mi, S, U⟩ := dt
  obtain ⟨h1, h2, h3, h4, h5, h6, h7, h8, h9⟩ := h
  dsimp only at *
  have hb1 : H ≤ 23 := by omega
  have hb2 : Mi ≤ 59 := by omega
  have hb3 : S ≤ 59 := by omega
  have h5b : D ≤ 31 := le_trans h5 (daysInMonth_le31 Y M)
  unfold isoChars parseCore
  simp [parseYMD_iso Y M D (by omega) (by omega) (by omega), expectC_cons,
        parseHMS_iso H Mi S U (by omega) (by omega) (by omega) h9, parseOffEnd_val,
        h1, h2, h3, h4, h5, hb1, hb2, hb3]

theorem isoparse_isoformat (dt : PyDateTime) (h : ValidDT dt) (hy : dt.year ≤ 9999) :
    isoparse (isoformat dt) = some dt := by
  have e : (isoformat dt).data = isoChars dt := rfl
  unfold isoparse
  rw [e, parse_isoChars dt h hy]

theorem optMapAll_mem_last {α β : Type} (f : α → Option β) (l : List α) (a : α) (b : β)
    (hl : ∀ x ∈ l, (f x).isSome = true) (ha : f a = some b) :
    ∃ out, optMapAll f (l ++ [a]) = some out ∧ b ∈ out := by
  induction l with
  | nil => exact ⟨[b], by simp [optMapAll, ha], by simp⟩
  | cons x t ih =>
    have hx : (f x).isSome := hl x (by simp)
    obtain ⟨bx, hbx⟩ := Option.isSome_iff_exists.mp hx
    obtain ⟨out, ho, hb⟩ := ih fun z hz => hl z (by simp [hz])
    refine ⟨bx :: out, ?_, by simp [hb]⟩
    show optMapAll f (x :: (t ++ [a])) = some (bx :: out)
    unfold optMapAll
    rw [hbx, ho]

theorem map_if_eq_self {i : Nat} {l : List Row} (g : Row → Row)
    (h : ∀ row ∈ l, row.reminder_id ≠ i) :
    (l.map fun row => if row.reminder_id = i then g row else row) = l := by
  induction l with
  | nil => rfl
  | cons a t ih =>
    simp only [List.map_cons]
    rw [if_neg (h a (by simp)), ih fun r hr => h r (by simp [hr])]

theorem dayBranch_fst_ne {g1 : Option String} {text : String} {r : String × String}
    (h : dayBranch g1 text = some r) : r.1 ≠ "" := by
  unfold dayBranch at h
  cases g1 with
  | none => exact absurd h (by simp)
  | some g =>
    dsimp only at h
    by_cases hg : pstrip g = ""
    · rw [if_pos hg] at h
      exact absurd h (by simp)
    · rw [if_neg hg] at h
      have := Option.some.inj h
      rw [← this]
      exact hg

/-- C1: for a `last day of every month` reminder with no prior value, at
`now` = 2024-05-15 10:00 the code computes 2024-05-31 09:00, the last day of
the *current* month of `now` (the claim and the code's own comment say the
month following `now`, i.e. 2024-06-30). -/
theorem calc_last_month_yields_current_month :
    calculate_next_execution
        ⟨"pay bills", some "monthly", none, some "last day of every month", none, 1, 10, none, some 1⟩
        ⟨2024, 5, 15, 10, 0, 0, 0⟩ =
      some ⟨"pay bills", some "monthly", none, some "last day of every month",
            some ⟨2024, 5, 31, 9, 0, 0, 0⟩, 1, 10, none, some 1⟩ ∧
    (⟨2024, 5, 31, 9, 0, 0, 0⟩ : PyDateTime).month = (⟨2024, 5, 15, 10, 0, 0, 0⟩ : PyDateTime).month := by
  exact ⟨rfl, rfl⟩

/-- C3 (counterexample): updating a reminder whose id (5) is absent from the
store returns normally with the store unchanged: there is no `NotFound`
failure. -/
theorem update_missing_id_is_silent_noop :
    save_reminder ⟨[], 1⟩ ⟨"water plants", none, none, none, none, 1, 10, none, some 5⟩ =
      (⟨[], 1⟩, ⟨"water plants", none, none, none, none, 1, 10, none, some 5⟩) := rfl

/-- C3 (amended): `update` (a truthy-id `save_reminder`) replaces the row
keyed by the id when present, leaves the sequence counter and the passed
record untouched, and is a silent no-op on the store when no row has the id. -/
theorem update_replaces_or_noop (st : Store) (rem : Reminder) (i : Nat)
    (hid : rem.reminder_id = some i) (hnz : i ≠ 0) :
    (save_reminder st rem).1.rows =
      st.rows.map (fun row => if row.reminder_id = i then toRow rem i else row) ∧
    (save_reminder st rem).1.nextId = st.nextId ∧
    (save_reminder st rem).2 = rem ∧
    ((∀ row ∈ st.rows, row.reminder_id ≠ i) → (save_reminder st rem).1 = st) := by
  unfold save_reminder
  rw [hid]
  dsimp only
  rw [if_pos hnz]
  refine ⟨rfl, rfl, rfl, fun h => ?_⟩
  dsimp only
  rw [map_if_eq_self _ h]

theorem update_replaces_or_noop_witness :
    (save_reminder ⟨[⟨2, "a", none, none, none, none, 1, 10, none⟩], 3⟩
        ⟨"b", none, none, none, none, 1, 10, none, some 5⟩).1 =
      ⟨[⟨2, "a", none, none, none, none, 1, 10, none⟩], 3⟩ :=
  (update_replaces_or_noop ⟨[⟨2, "a", none, none, none, none, 1, 10, none⟩], 3⟩
      ⟨"b", none, none, none, none, 1, 10, none, some 5⟩ 5 rfl (by decide)).2.2.2
    (by decide)

/-- C4: deleting reminder 1 via the `delete` command removes its row from
the store and from any subsequent `list` result, but its pending job-queue
wake `reminder_1` is left armed: the delete branch never cancels jobs
(unlike the edit branch). -/
theorem delete_removes_row_but_leaves_wake :
    (remind_delete_one
        ⟨⟨[toRow ⟨"standup", some "daily", none, none, some ⟨2024, 5, 16, 9, 0, 0, 0⟩, 7, 10, none, some 1⟩ 1], 2⟩,
         [⟨"standup", some "daily", none, none, some ⟨2024, 5, 16, 9, 0, 0, 0⟩, 7, 10, none, some 1⟩],
         [(jobName (some 1), ⟨"standup", some "daily", none, none, some ⟨2024, 5, 16, 9, 0, 0, 0⟩, 7, 10, none, some 1⟩)],
         [], []⟩ 10 1).1.store.rows = [] ∧
    load_reminders
      (remind_delete_one
        ⟨⟨[toRow ⟨"standup", some "daily", none, none, some ⟨2024, 5, 16, 9, 0, 0, 0⟩, 7, 10, none, some 1⟩ 1], 2⟩,
         [⟨"standup", some "daily", none, none, some ⟨2024, 5, 16, 9, 0, 0, 0⟩, 7, 10, none, some 1⟩],
         [(jobName (some 1), ⟨"standup", some "daily", none, none, some ⟨2024, 5, 16, 9, 0, 0, 0⟩, 7, 10, none, some 1⟩)],
         [], []⟩ 10 1).1.store (some 10) = some [] ∧
    (remind_delete_one
        ⟨⟨[toRow ⟨"standup", some "daily", none, none, some ⟨2024, 5, 16, 9, 0, 0, 0⟩, 7, 10, none, some 1⟩ 1], 2⟩,
         [⟨"standup", some "daily", none, none, some ⟨2024, 5, 16, 9, 0, 0, 0⟩, 7, 10, none, some 1⟩],
         [(jobName (some 1), ⟨"standup", some "daily", none, none, some ⟨2024, 5, 16, 9, 0, 0, 0⟩, 7, 10, none, some 1⟩)],
         [], []⟩ 10 1).1.jobs =
      [(jobName (some 1), ⟨"standup", some "daily", none, none, some ⟨2024, 5, 16, 9, 0, 0, 0⟩, 7, 10, none, some 1⟩)] := by
  exact ⟨rfl, rfl, rfl⟩

/-- C5 (counterexample): on the input of the claim, `parse` *does* capture
the trailing clock time into the `time` field. -/
theorem parse_modifier_input_captures_time :
    (parse "pay rent on the first day of every month at 10:00").time = some (10, 0) ∧
    (parse "pay rent on the first day of every month at 10:00").time ≠ none := by
  exact ⟨rfl, by decide⟩

/-- C5 (amended): the parse returns `date_modifier = "first day of every
month"` and the trailing `at 10:00` *is* captured as `time = (10, 0)`. -/
theorem parse_first_day_and_time_captured :
    (parse "pay rent on the first day of every month at 10:00").date_modifier =
      some "first day of every month" ∧
    (parse "pay rent on the first day of every month at 10:00").time = some (10, 0) := by
  exact ⟨rfl, rfl⟩

/-- C2 (counterexample): a daily reminder whose prior `next_execution` is
two days overdue is recomputed at dispatch to prior + 1 day, a timestamp
still strictly before `now`, and exactly that past value is persisted to the
store row and armed as the wake payload. -/
theorem dispatch_persists_past_timestamp :
    (send_reminder
        ⟨⟨[toRow ⟨"water plants", some "daily", none, none, some ⟨2024, 5, 13, 12, 0, 0, 0⟩, 7, 10, none, some 1⟩ 1], 2⟩,
         [⟨"water plants", some "daily", none, none, some ⟨2024, 5, 13, 12, 0, 0, 0⟩, 7, 10, none, some 1⟩],
         [], [], []⟩
        ⟨"water plants", some "daily", none, none, some ⟨2024, 5, 13, 12, 0, 0, 0⟩, 7, 10, none, some 1⟩
        ⟨2024, 5, 15, 12, 0, 0, 0⟩ true).map
        (fun s => (s.store.rows.map Row.next_execution, s.jobs.map fun j => j.2.next_execution)) =
      some ([some (isoformat ⟨2024, 5, 14, 12, 0, 0, 0⟩)], [some ⟨2024, 5, 14, 12, 0, 0, 0⟩]) ∧
    totalMicro ⟨2024, 5, 14, 12, 0, 0, 0⟩ < totalMicro ⟨2024, 5, 15, 12, 0, 0, 0⟩ := by
  exact ⟨rfl, by decide⟩

/-- C2 (amended): for every recurring reminder whose prior `next_execution`
is due (`≤ now`), whenever the recompute step returns it yields a timestamp
strictly after the prior one; the recompute pushes the value strictly
forward from its own prior value, but (as the counterexample shows) not
necessarily past `now`. -/
theorem recompute_strictly_advances (rem rem2 : Reminder) (now t : PyDateTime)
    (hvnow : ValidDT now) (hvt : ValidDT t)
    (hprev : rem.next_execution = some t)
    (hdue : totalMicro t ≤ totalMicro now)
    (hrec : rem.date_modifier = some "first day of every month" ∨
            rem.date_modifier = some "last day of every month" ∨
            (rem.date_modifier = none ∧
              (rem.frequency = some "daily" ∨ rem.frequency = some "weekly" ∨
               rem.frequency = some "monthly" ∨ rem.frequency = some "seconds")))
    (hcalc : calculate_next_execution rem now = some rem2) :
    ∃ t2, rem2.next_execution = some t2 ∧ totalMicro t < totalMicro t2 := by
  rcases hrec with hmod | hmod | ⟨hmod, hfreq⟩
  · unfold calculate_next_execution at hcalc
    rw [if_pos hmod] at hcalc
    have h2 := Option.some.inj hcalc
    refine ⟨calcFirstMonth rem.next_execution now, by rw [← h2], ?_⟩
    have := calcFirstMonth_gt rem.next_execution now hvnow
    omega
  · unfold calculate_next_execution at hcalc
    rw [if_neg (by simp [hmod]), if_pos hmod, hprev] at hcalc
    cases hd : calcLastMonth (some t) now with
    | none =>
      rw [hd] at hcalc
      exact absurd hcalc (by simp)
    | some d =>
      rw [hd] at hcalc
      have h2 : ({ rem with next_execution := some d } : Reminder) = rem2 := by
        simpa using hcalc
      exact ⟨d, by rw [← h2], calcLastMonth_strict hvnow hvt hdue hd⟩
  · unfold calculate_next_execution at hcalc
    rw [if_neg (by simp [hmod]), if_neg (by simp [hmod])] at hcalc
    rcases hfreq with hf | hf | hf | hf
    · rw [if_neg (by simp [hf, truthyS])] at hcalc
      unfold freqStep at hcalc
      rw [if_pos hf, hprev] at hcalc
      dsimp only at hcalc
      rw [if_pos hdue] at hcalc
      have h2 := Option.some.inj hcalc
      refine ⟨addDaysN 1 t, by rw [← h2], ?_⟩
      have := addDaysN_micro 1 t hvt
      omega
    · rw [if_neg (by simp [hf, truthyS])] at hcalc
      unfold freqStep at hcalc
      rw [if_neg (by simp [hf]), if_pos hf, hprev] at hcalc
      dsimp only at hcalc
      rw [if_pos hdue] at hcalc
      have h2 := Option.some.inj hcalc
      refine ⟨addDaysN 7 t, by rw [← h2], ?_⟩
      have := addDaysN_micro 7 t hvt
      omega
    · rw [if_neg (by simp [hf, truthyS])] at hcalc
      unfold freqStep at hcalc
      rw [if_neg (by simp [hf]), if_neg (by simp [hf]), if_pos hf, hprev] at hcalc
      dsimp only at hcalc
      rw [if_pos hdue] at hcalc
      have h2 := Option.some.inj hcalc
      refine ⟨addMonths1 t, by rw [← h2], ?_⟩
      exact addMonths1_micro_lt hvt
    · rw [if_neg (by simp [hf, truthyS])] at hcalc
      unfold freqStep at hcalc
      rw [if_neg (by simp [hf]), if_neg (by simp [hf]), if_neg (by simp [hf]), if_pos hf] at hcalc
      have h2 := Option.some.inj hcalc
      refine ⟨addSecondsN 5 now, by rw [← h2], ?_⟩
      have := addSecondsN_micro 5 now hvnow
      omega

theorem recompute_strictly_advances_witness :
    ∃ t2, (⟨"w", some "daily", none, none, some ⟨2024, 5, 14, 12, 0, 0, 0⟩, 7, 10, none, some 1⟩ : Reminder).next_execution = some t2 ∧
      totalMicro ⟨2024, 5, 13, 12, 0, 0, 0⟩ < totalMicro t2 :=
  recompute_strictly_advances
    ⟨"w", some "daily", none, none, some ⟨2024, 5, 13, 12, 0, 0, 0⟩, 7, 10, none, some 1⟩
    ⟨"w", some "daily", none, none, some ⟨2024, 5, 14, 12, 0, 0, 0⟩, 7, 10, none, some 1⟩
    ⟨2024, 5, 15, 12, 0, 0, 0⟩ ⟨2024, 5, 13, 12, 0, 0, 0⟩
    (by decide) (by decide) rfl (by decide)
    (Or.inr (Or.inr ⟨rfl, Or.inl rfl⟩)) rfl

/-- C6: with no date modifier, a `daily`/`weekly`/`monthly` reminder whose
`next_execution` is still in the future is returned unchanged by
`calculate_next_execution` (idempotence), while a `seconds` (debug) reminder
is always reset to `now + 5` seconds regardless of its prior value. -/
theorem compute_next_idempotent_and_debug_resets :
    (∀ (rem : Reminder) (now t : PyDateTime), rem.date_modifier = none →
      (rem.frequency = some "daily" ∨ rem.frequency = some "weekly" ∨
        rem.frequency = some "monthly") →
      rem.next_execution = some t → totalMicro now < totalMicro t →
      calculate_next_execution rem now = some rem) ∧
    (∀ (rem : Reminder) (now : PyDateTime), rem.date_modifier = none →
      rem.frequency = some "seconds" →
      calculate_next_execution rem now =
        some { rem with next_execution := some (addSecondsN 5 now) }) := by
  constructor
  · intro rem now t hmod hfreq hprev hfut
    unfold calculate_next_execution
    rw [if_neg (by simp [hmod]), if_neg (by simp [hmod])]
    rcases hfreq with hf | hf | hf
    · rw [if_neg (by simp [hf, truthyS])]
      unfold freqStep
      rw [if_pos hf, hprev]
      dsimp only
      rw [if_neg (by omega)]
    · rw [if_neg (by simp [hf, truthyS])]
      unfold freqStep
      rw [if_neg (by simp [hf]), if_pos hf, hprev]
      dsimp only
      rw [if_neg (by omega)]
    · rw [if_neg (by simp [hf, truthyS])]
      unfold freqStep
      rw [if_neg (by simp [hf]), if_neg (by simp [hf]), if_pos hf, hprev]
      dsimp only
      rw [if_neg (by omega)]
  · intro rem now hmod hf
    unfold calculate_next_execution
    rw [if_neg (by simp [hmod]), if_neg (by simp [hmod]), if_neg (by simp [hf, truthyS])]
    unfold freqStep
    rw [if_neg (by simp [hf]), if_neg (by simp [hf]), if_neg (by simp [hf]), if_pos hf]

theorem compute_next_idempotent_and_debug_resets_witness :
    calculate_next_execution
        ⟨"gym", some "weekly", none, none, some ⟨2024, 5, 20, 18, 0, 0, 0⟩, 7, 10, none, some 1⟩
        ⟨2024, 5, 15, 12, 0, 0, 0⟩ =
      some ⟨"gym", some "weekly", none, none, some ⟨2024, 5, 20, 18, 0, 0, 0⟩, 7, 10, none, some 1⟩ ∧
    calculate_next_execution
        ⟨"ping", some "seconds", none, none, some ⟨2024, 5, 20, 18, 0, 0, 0⟩, 7, 10, none, some 2⟩
        ⟨2024, 5, 15, 12, 0, 0, 0⟩ =
      some ⟨"ping", some "seconds", none, none, some (addSecondsN 5 ⟨2024, 5, 15, 12, 0, 0, 0⟩), 7, 10, none, some 2⟩ :=
  ⟨compute_next_idempotent_and_debug_resets.1
      ⟨"gym", some "weekly", none, none, some ⟨2024, 5, 20, 18, 0, 0, 0⟩, 7, 10, none, some 1⟩
      ⟨2024, 5, 15, 12, 0, 0, 0⟩ ⟨2024, 5, 20, 18, 0, 0, 0⟩ rfl (Or.inr (Or.inl rfl)) rfl (by decide),
   compute_next_idempotent_and_debug_resets.2
      ⟨"ping", some "seconds", none, none, some ⟨2024, 5, 20, 18, 0, 0, 0⟩, 7, 10, none, some 2⟩
      ⟨2024, 5, 15, 12, 0, 0, 0⟩ rfl rfl⟩

/-- C7: with no date modifier, `calculate_next_execution` with no prior
value yields exactly `now` plus one interval (1 day, 7 days, or one calendar
month via `relativedelta`), and with a due prior value (`≤ now`) advances by
exactly one interval from the prior value itself, not from `now`. -/
theorem compute_next_exact_interval (rem : Reminder) (now : PyDateTime)
    (hmod : rem.date_modifier = none) :
    ((rem.frequency = some "daily" →
        (rem.next_execution = none →
          calculate_next_execution rem now = some { rem with next_execution := some (addDaysN 1 now) }) ∧
        (∀ t, rem.next_execution = some t → totalMicro t ≤ totalMicro now →
          calculate_next_execution rem now = some { rem with next_execution := some (addDaysN 1 t) })) ∧
     (rem.frequency = some "weekly" →
        (rem.next_execution = none →
          calculate_next_execution rem now = some { rem with next_execution := some (addDaysN 7 now) }) ∧
        (∀ t, rem.next_execution = some t → totalMicro t ≤ totalMicro now →
          calculate_next_execution rem now = some { rem with next_execution := some (addDaysN 7 t) })) ∧
     (rem.frequency = some "monthly" →
        (rem.next_execution = none →
          calculate_next_execution rem now = some { rem with next_execution := some (addMonths1 now) }) ∧
        (∀ t, rem.next_execution = some t → totalMicro t ≤ totalMicro now →
          calculate_next_execution rem now = some { rem with next_execution := some (addMonths1 t) }))) := by
  refine ⟨fun hf => ⟨fun hnone => ?_, fun t hprev hdue => ?_⟩,
          fun hf => ⟨fun hnone => ?_, fun t hprev hdue => ?_⟩,
          fun hf => ⟨fun hnone => ?_, fun t hprev hdue => ?_⟩⟩
  · unfold calculate_next_execution
    rw [if_neg (by simp [hmod]), if_neg (by simp [hmod]), if_neg (by simp [hf, truthyS])]
    unfold freqStep
    rw [if_pos hf, hnone]
  · unfold calculate_next_execution
    rw [if_neg (by simp [hmod]), if_neg (by simp [hmod]), if_neg (by simp [hf, truthyS])]
    unfold freqStep
    rw [if_pos hf, hprev]
    dsimp only
    rw [if_pos hdue]
  · unfold calculate_next_execution
    rw [if_neg (by simp [hmod]), if_neg (by simp [hmod]), if_neg (by simp [hf, truthyS])]
    unfold freqStep
    rw [if_neg (by simp [hf]), if_pos hf, hnone]
  · unfold calculate_next_execution
    rw [if_neg (by simp [hmod]), if_neg (by simp [hmod]), if_neg (by simp [hf, truthyS])]
    unfold freqStep
    rw [if_neg (by simp [hf]), if_pos hf, hprev]
    dsimp only
    rw [if_pos hdue]
  · unfold calculate_next_execution
    rw [if_neg (by simp [hmod]), if_neg (by simp [hmod]), if_neg (by simp [hf, truthyS])]
    unfold freqStep
    rw [if_neg (by simp [hf]), if_neg (by simp [hf]), if_pos hf, hnone]
  · unfold calculate_next_execution
    rw [if_neg (by simp [hmod]), if_neg (by simp [hmod]), if_neg (by simp [hf, truthyS])]
    unfold freqStep
    rw [if_neg (by simp [hf]), if_neg (by simp [hf]), if_pos hf, hprev]
    dsimp only
    rw [if_pos hdue]

theorem compute_next_exact_interval_witness :
    calculate_next_execution
        ⟨"run", some "daily", none, none, none, 7, 10, none, some 1⟩ ⟨2024, 5, 15, 12, 0, 0, 0⟩ =
      some ⟨"run", some "daily", none, none, some (addDaysN 1 ⟨2024, 5, 15, 12, 0, 0, 0⟩), 7, 10, none, some 1⟩ ∧
    calculate_next_execution
        ⟨"run", some "daily", none, none, some ⟨2024, 5, 13, 12, 0, 0, 0⟩, 7, 10, none, some 1⟩
        ⟨2024, 5, 15, 12, 0, 0, 0⟩ =
      some ⟨"run", some "daily", none, none, some (addDaysN 1 ⟨2024, 5, 13, 12, 0, 0, 0⟩), 7, 10, none, some 1⟩ :=
  ⟨((compute_next_exact_interval
        ⟨"run", some "daily", none, none, none, 7, 10, none, some 1⟩
        ⟨2024, 5, 15, 12, 0, 0, 0⟩ rfl).1 rfl).1 rfl,
   ((compute_next_exact_interval
        ⟨"run", some "daily", none, none, some ⟨2024, 5, 13, 12, 0, 0, 0⟩, 7, 10, none, some 1⟩
        ⟨2024, 5, 15, 12, 0, 0, 0⟩ rfl).1 rfl).2 ⟨2024, 5, 13, 12, 0, 0, 0⟩ rfl (by decide)⟩

/-- C8: the dispatch step is insensitive to the delivery outcome: a failed
send is caught, leaves exactly one extra error-log line, and the recurrence
computation, store update, cache resync and re-arm (or the delete of a
one-time reminder) produce the same store/cache/job state as a successful
send. -/
theorem delivery_failure_keeps_schedule (s : SysState) (rem : Reminder) (now : PyDateTime) :
    (send_reminder s rem now false).map (fun st => (st.store, st.mem, st.jobs)) =
      (send_reminder s rem now true).map (fun st => (st.store, st.mem, st.jobs)) ∧
    (send_reminder s rem now false).map (fun st => st.logs) =
      (send_reminder s rem now true).map (fun st => st.logs ++ ["Sending reminder failed"]) := by
  cases hc : calculate_next_execution rem now with
  | none => constructor <;> simp [send_reminder, hc]
  | some rem2 =>
    by_cases hrec : truthyS rem2.frequency = true ∨ truthyS rem2.date_modifier = true
    · cases hm : optMapAll from_tuple (save_reminder s.store rem2).1.rows with
      | none => constructor <;> simp [send_reminder, managerSave, hc, hrec, hm]
      | some mem2 => constructor <;> simp [send_reminder, managerSave, hc, hrec, hm]
    · constructor <;> simp [send_reminder, managerSave, remove_reminder, hc, hrec]

/-- C9: creating a reminder (insert-path `save_reminder`) and then listing
the reminders of its chat returns the very record that was created: every
field, the `next_execution` timestamp included, survives the
isoformat/isoparse round trip of the TEXT column exactly (hence in
particular at whole-second granularity). -/
theorem create_then_list_roundtrip (st : Store) (rem : Reminder) (dt : PyDateTime)
    (hid : rem.reminder_id = none) (hnext : rem.next_execution = some dt)
    (hv : ValidDT dt) (hy : dt.year ≤ 9999) (hchat : rem.chat_id ≠ 0)
    (hwf : ∀ row ∈ st.rows, (from_tuple row).isSome = true) :
    ∃ out, load_reminders (save_reminder st rem).1 (some rem.chat_id) = some out ∧
      (save_reminder st rem).2 ∈ out := by
  have hft : from_tuple (toRow rem st.nextId) = some { rem with reminder_id := some st.nextId } := by
    obtain ⟨task, freq, delay, md, next, uid, cid, mention, rid⟩ := rem
    dsimp only at hnext
    subst hnext
    unfold toRow from_tuple
    dsimp only
    rw [show (Option.map isoformat (some dt)) = some (isoformat dt) from rfl]
    dsimp only
    rw [isoparse_isoformat dt hv hy]
    rfl
  unfold save_reminder
  rw [hid]
  dsimp only
  unfold load_reminders
  dsimp only
  rw [if_pos hchat, List.filter_append]
  have hfone : List.filter (fun row => row.chat_id == rem.chat_id) [toRow rem st.nextId] =
      [toRow rem st.nextId] := by
    simp [toRow]
  rw [hfone]
  exact optMapAll_mem_last from_tuple _ _ _
    (fun x hx => hwf x (List.mem_of_mem_filter hx)) hft

theorem create_then_list_roundtrip_witness :
    ∃ out,
      load_reminders
          (save_reminder ⟨[], 1⟩
            ⟨"dentist", some "monthly", none, none, some ⟨2024, 5, 15, 9, 30, 0, 0⟩, 7, 10, some "@u", none⟩).1
          (some (10 : Int)) = some out ∧
      (save_reminder ⟨[], 1⟩
          ⟨"dentist", some "monthly", none, none, some ⟨2024, 5, 15, 9, 30, 0, 0⟩, 7, 10, some "@u", none⟩).2 ∈ out :=
  create_then_list_roundtrip ⟨[], 1⟩
    ⟨"dentist", some "monthly", none, none, some ⟨2024, 5, 15, 9, 30, 0, 0⟩, 7, 10, some "@u", none⟩
    ⟨2024, 5, 15, 9, 30, 0, 0⟩ rfl rfl (by decide) (by decide) (by decide)
    (fun row h => absurd h (by simp))

/-- C10: for every non-empty input the task component of
`extract_task_and_time` is non-empty; in particular when neither day-of-month
special case fires and the selected time pattern matches at position 0 (so
no text precedes the temporal expression), the task is the whole input
string rather than the empty prefix. -/
theorem extract_task_nonempty (text : String) (h : text ≠ "") :
    (extract_task_and_time text).1 ≠ "" ∧
    (dayBranch (firstDayG1 text) text = none → dayBranch (lastDayG1 text) text = none →
      timeMatchStart text = some 0 → (extract_task_and_time text).1 = text) := by
  unfold extract_task_and_time
  cases h1 : dayBranch (firstDayG1 text) text with
  | some r =>
    exact ⟨dayBranch_fst_ne h1, fun hn _ _ => absurd hn (by simp)⟩
  | none =>
    cases h2 : dayBranch (lastDayG1 text) text with
    | some r =>
      exact ⟨dayBranch_fst_ne h2, fun _ hn _ => absurd hn (by simp)⟩
    | none =>
      cases h3 : timeMatchStart text with
      | none => exact ⟨h, fun _ _ hn => rfl⟩
      | some s =>
        dsimp only
        constructor
        · by_cases hpt : pstrip (String.mk (text.data.take s)) = ""
          · rw [if_pos hpt]
            exact h
          · rw [if_neg hpt]
            exact hpt
        · intro _ _ hn
          have hs : s = 0 := Option.some.inj hn
          subst hs
          have hc : pstrip (String.mk (List.take 0 text.data)) = "" := rfl
          rw [if_pos hc]

theorem extract_task_nonempty_witness :
    (extract_task_and_time "daily x").1 ≠ "" ∧ (extract_task_and_time "daily x").1 = "daily x" :=
  ⟨(extract_task_nonempty "daily x" (by decide)).1,
   (extract_task_nonempty "daily x" (by decide)).2 (by decide) (by decide) (by decide)⟩
